import Mathlib

/-!
# Ethereum transactions / NFT transfers crawler: the three query functions

A shallow embedding of `src/main.go`:

* `getTransactionData`   (lines 32-56),
* `getNFTTransferEvents` (lines 58-106),
* `getBalanceAtDate`     (lines 108-126).

The ledger node is an explicit `Client` value whose four operations are
functions returning `Except GoError _`.  Library code the functions call
(`time.Unix`, `Time.Before`, `Hash.Hex`, `Address.Hex`, `common.Bytes2Hex`)
is written out after its Go definition; Keccak-256 and the ABI decoder are
taken as parameters (`Deps`), so every theorem holds for every hash function
and every decoder.
-/

namespace Crawler

/-! ## Go values -/

/-- A Go `error` value, identified by its message. -/
structure GoError where
  msg : String
  deriving DecidableEq, Repr

/-- A byte slice; every element is a byte (a natural number below 256). -/
abbrev Bytes := List Nat

/-- The type `common.Address`, a 20-byte array. -/
structure Address where
  bytes : Bytes
  deriving DecidableEq, Repr

/-- The type `common.Hash`, a 32-byte array. -/
structure Hash where
  bytes : Bytes
  deriving DecidableEq, Repr

/-! ## Machine integers -/

/-- Reinterpretation of an integer as an `int64` (two's complement wrap). -/
def wrapInt64 (x : Int) : Int := (x + 2 ^ 63) % 2 ^ 64 - 2 ^ 63

/-- The Go conversion `int64(n)` of a `uint64` value `n`. -/
def int64OfUint64 (n : Nat) : Int := wrapInt64 (n : Int)

/-! ## Package `time` -/

/-- A `time.Time` without monotonic clock reading: the seconds since
January 1, year 1 (an `int64`, Go's `t.sec()`) and the nanoseconds within the
second (Go's `t.nsec()`). -/
structure Time where
  sec : Int
  nsec : Nat
  deriving DecidableEq, Repr

/-- Go's `unixToInternal`: seconds from year 1 to 1970. -/
def unixToInternal : Int := 62135596800

/-- Go's `unixTime(sec, nsec)`: `Time{uint64(nsec), sec + unixToInternal, Local}`,
the addition being an `int64` addition. -/
def unixTime (sec : Int) (nsec : Nat) : Time :=
  { sec := wrapInt64 (sec + unixToInternal), nsec := nsec }

/-- Go's `time.Unix(sec, nsec)`: nanoseconds outside `[0, 1e9)` are first
carried into the seconds (truncated division, then one borrow). -/
def timeUnix (sec nsec : Int) : Time :=
  if nsec < 0 ∨ 1000000000 ≤ nsec then
    let n := Int.tdiv nsec 1000000000
    let sec1 := wrapInt64 (sec + n)
    let nsec1 := nsec - n * 1000000000
    if nsec1 < 0 then unixTime (wrapInt64 (sec1 - 1)) (nsec1 + 1000000000).toNat
    else unixTime sec1 nsec1.toNat
  else unixTime sec nsec.toNat

/-- Go's `t.Before(u)` when `t` carries no monotonic reading (every value made
by `time.Unix` is such): `ts < us || ts == us && t.nsec() < u.nsec()`. -/
def Time.Before (t u : Time) : Bool :=
  decide (t.sec < u.sec) || (decide (t.sec = u.sec) && decide (t.nsec < u.nsec))

/-- The `time.Time` of the calendar instant `unixSec` seconds after
1970-01-01T00:00:00Z, as `time.Parse` builds it for a date in range. -/
def dateOfUnix (unixSec : Int) : Time := { sec := unixSec + unixToInternal, nsec := 0 }

/-! ## Hex rendering (`encoding/hex`, `hexutil`, `common`) -/

/-- Go's constant `hextable`. -/
def hextable : String := "0123456789abcdef"

/-- The table lookup `hextable[k]`, used at `k < 16` only. -/
def hexDigit (k : Nat) : Char := hextable.toList.getD k '0'

/-- Go's `hex.Encode`: two digits per byte, `hextable[v>>4]` then
`hextable[v&0x0f]`. -/
def hexEncode : Bytes → List Char
  | [] => []
  | v :: rest => hexDigit (v % 256 / 16) :: hexDigit (v % 16) :: hexEncode rest

/-- Go's `common.Bytes2Hex(d)`, which is `hex.EncodeToString(d)`: no leading
"0x". -/
def Bytes2Hex (d : Bytes) : String := String.mk (hexEncode d)

/-- Go's `hexutil.Encode(b)`: "0x" followed by the hex digits. -/
def hexutilEncode (b : Bytes) : String := "0x" ++ String.mk (hexEncode b)

/-- Go's `Hash.Hex()`: `hexutil.Encode(h[:])`. -/
def Hash.Hex (h : Hash) : String := hexutilEncode h.bytes

/-- The body of the loop of `Address.checksumHex` for the digit at position
`j` (Go's `i - 2`): an `a..f` digit is upper-cased when the corresponding
nibble of the Keccak hash exceeds 7. The hash has 32 bytes and an address 40
digits, so the index `j / 2` is in range. -/
def checksumDigit (hash : Bytes) (j : Nat) (ch : Char) : Char :=
  let hashByte := hash.getD (j / 2) 0
  let nibble := if j % 2 = 0 then hashByte % 256 / 16 else hashByte % 16
  if '9' < ch ∧ 7 < nibble then Char.ofNat (ch.toNat - 32) else ch

/-- The loop of `Address.checksumHex` over the digits, from position `j`. -/
def checksumFrom (hash : Bytes) : Nat → List Char → List Char
  | _, [] => []
  | j, ch :: rest => checksumDigit hash j ch :: checksumFrom hash (j + 1) rest

/-- Go's `Address.Hex()`: the EIP-55 checksummed rendering; the hash is taken
over the ASCII bytes of the lower-case digits. -/
def Address.Hex (keccak256 : Bytes → Bytes) (a : Address) : String :=
  let digits := hexEncode a.bytes
  let hash := keccak256 (digits.map Char.toNat)
  "0x" ++ String.mk (checksumFrom hash 0 digits)

/-- Go's `(*big.Int).String()`: decimal digits, and "<nil>" for a nil pointer. -/
def bigIntString : Option Int → String
  | none => "<nil>"
  | some v => toString v

/-! ## The ledger node -/

/-- A block as far as the program reads it: `block.Time()`, a `uint64`. -/
structure Block where
  Time : Nat
  deriving DecidableEq, Repr

/-- The fields of `types.Log` the program reads. -/
structure Log where
  Address : Address
  Topics : List Hash
  Data : Bytes
  TxHash : Hash
  deriving DecidableEq, Repr

/-- The fields of `ethereum.FilterQuery` the program sets; a nil `*big.Int` is
`none`. -/
structure FilterQuery where
  FromBlock : Option Int
  ToBlock : Option Int
  Addresses : List Address
  deriving DecidableEq, Repr

/-- The four operations of `*ethclient.Client` the program calls. Block
numbers are passed as `*big.Int`, hence `Int`. -/
structure Client where
  BlockNumber : Except GoError Nat
  BlockByNumber : Int → Except GoError Block
  BalanceAt : Address → Int → Except GoError Int
  FilterLogs : FilterQuery → Except GoError (List Log)

/-- One RPC round trip issued through the client. -/
inductive RpcCall where
  | blockNumber
  | blockByNumber (number : Int)
  | balanceAt (account : Address) (number : Int)
  deriving DecidableEq, Repr

/-- What `parsedABI.UnpackIntoInterface` leaves in the local `transferEvent`. -/
structure TransferFields where
  From : Address
  To : Address
  TokenId : Option Int
  deriving DecidableEq, Repr

/-- Library functions taken as parameters: Keccak-256
(`sha3.NewLegacyKeccak256`, `Write`, `Sum(nil)`), `abi.JSON` applied to the
interface text, and `UnpackIntoInterface(&transferEvent, name, data)` on the
zero-valued `transferEvent`. -/
structure Deps where
  ABI : Type
  keccak256 : Bytes → Bytes
  abiJSON : String → Except GoError ABI
  UnpackIntoInterface : ABI → String → Bytes → Except GoError TransferFields

/-! ## The program's data types -/

/-- The record `TransactionData`; `Data` is the Go string `string(vLog.Data)`,
a byte sequence. -/
structure TransactionData where
  TxHash : String
  Address : String
  Data : Bytes
  deriving DecidableEq, Repr

/-- The record `NFTTransferEvent`. -/
structure NFTTransferEvent where
  From : String
  To : String
  TokenId : String
  deriving DecidableEq, Repr

/-- The outcome of a Go call that can also abort with a run-time panic. -/
inductive Run (α : Type) where
  | ok (value : α)
  | error (err : GoError)
  | panic (msg : String)
  deriving Repr

/-! ## `getTransactionData` -/

/-- The record appended for one log (lines 48-52). -/
def transactionOf (keccak256 : Bytes → Bytes) (vLog : Log) : TransactionData :=
  { TxHash := vLog.TxHash.Hex
    Address := vLog.Address.Hex keccak256
    Data := vLog.Data }

/-- The function `getTransactionData` (lines 32-56). -/
def getTransactionData (d : Deps) (client : Client) (address : Address)
    (startBlock : Option Int) : Except GoError (List TransactionData) :=
  let query : FilterQuery :=
    { FromBlock := startBlock, ToBlock := none, Addresses := [address] }
  match client.FilterLogs query with
  | .error err => .error err
  | .ok logs =>
    .ok (logs.foldl (fun transactions vLog =>
      transactions ++ [transactionOf d.keccak256 vLog]) [])

/-! ## `getNFTTransferEvents` -/

/-- The bytes of the Go string "Transfer(address,address,uint256)". -/
def transferFnSignature : Bytes := "Transfer(address,address,uint256)".toList.map Char.toNat

/-- The constant `contractABI` (line 85). -/
def contractABI : String :=
  "[\x7b\"constant\":true,\"inputs\":[\x7b\"name\":\"tokenId\",\"type\":\"uint256\"\x7d],\"name\":\"ownerOf\",\"outputs\":[\x7b\"name\":\"owner\",\"type\":\"address\"\x7d],\"payable\":false,\"stateMutability\":\"view\",\"type\":\"function\"\x7d,\x7b\"anonymous\":false,\"inputs\":[\x7b\"indexed\":true,\"name\":\"from\",\"type\":\"address\"\x7d,\x7b\"indexed\":true,\"name\":\"to\",\"type\":\"address\"\x7d,\x7b\"indexed\":true,\"name\":\"tokenId\",\"type\":\"uint256\"\x7d],\"name\":\"Transfer\",\"type\":\"event\"\x7d]"

/-- The index expression `vLog.Topics[k]`: a run-time panic when out of range. -/
def topicAt (topics : List Hash) (k : Nat) : Run Hash :=
  match topics.get? k with
  | some t => .ok t
  | none =>
    .panic ("runtime error: index out of range [" ++ toString k ++ "] with length "
      ++ toString topics.length)

/-- The condition of line 77, evaluated left to right with the short-circuit
rules of `&&` and `||`. -/
def acceptLog (d : Deps) (hashed : Bytes) (userAddress : Address) (vLog : Log) : Run Bool :=
  match topicAt vLog.Topics 0 with
  | .panic m => .panic m
  | .error e => .error e
  | .ok t0 =>
    if t0.Hex = Bytes2Hex hashed then
      match topicAt vLog.Topics 1 with
      | .panic m => .panic m
      | .error e => .error e
      | .ok t1 =>
        if t1.Hex = userAddress.Hex d.keccak256 then .ok true
        else
          match topicAt vLog.Topics 2 with
          | .panic m => .panic m
          | .error e => .error e
          | .ok t2 => .ok (decide (t2.Hex = userAddress.Hex d.keccak256))
    else .ok false

/-- The body of the `if` of line 77 (lines 78-101): parse the interface,
unpack the payload, build the event. -/
def decodeLog (d : Deps) (vLog : Log) : Except GoError NFTTransferEvent :=
  match d.abiJSON contractABI with
  | .error err => .error err
  | .ok parsedABI =>
    match d.UnpackIntoInterface parsedABI "Transfer" vLog.Data with
    | .error err => .error err
    | .ok transferEvent =>
      .ok { From := transferEvent.From.Hex d.keccak256
            To := transferEvent.To.Hex d.keccak256
            TokenId := bigIntString transferEvent.TokenId }

/-- The loop of lines 76-103, from the events gathered so far. -/
def transferLoop (d : Deps) (hashed : Bytes) (userAddress : Address) :
    List Log → List NFTTransferEvent → Run (List NFTTransferEvent)
  | [], events => .ok events
  | vLog :: rest, events =>
    match acceptLog d hashed userAddress vLog with
    | .panic m => .panic m
    | .error e => .error e
    | .ok false => transferLoop d hashed userAddress rest events
    | .ok true =>
      match decodeLog d vLog with
      | .error err => .error err
      | .ok ev => transferLoop d hashed userAddress rest (events ++ [ev])

/-- The function `getNFTTransferEvents` (lines 58-106). -/
def getNFTTransferEvents (d : Deps) (client : Client) (contractAddress userAddress : Address)
    (startBlock : Option Int) : Run (List NFTTransferEvent) :=
  let query : FilterQuery :=
    { FromBlock := startBlock, ToBlock := none, Addresses := [contractAddress] }
  let hashed := d.keccak256 transferFnSignature
  match client.FilterLogs query with
  | .error err => .error err
  | .ok logs => transferLoop d hashed userAddress logs []

/-! ## `getBalanceAtDate` -/

/-- The loop of lines 114-125 from counter value `i`, with the RPC round trips
it issues, in order. -/
def scanBlocks (client : Client) (address : Address) (date : Time) :
    Nat → Except GoError Int × List RpcCall
  | 0 => (.error ⟨"no blocks found before the specified date"⟩, [])
  | i + 1 =>
    match client.BlockByNumber (int64OfUint64 (i + 1)) with
    | .error err => (.error err, [.blockByNumber (int64OfUint64 (i + 1))])
    | .ok block =>
      if (timeUnix (int64OfUint64 block.Time) 0).Before date then
        (client.BalanceAt address (int64OfUint64 (i + 1)),
          [.blockByNumber (int64OfUint64 (i + 1)), .balanceAt address (int64OfUint64 (i + 1))])
      else
        ((scanBlocks client address date i).1,
          .blockByNumber (int64OfUint64 (i + 1)) :: (scanBlocks client address date i).2)

/-- The function `getBalanceAtDate` (lines 108-126): the returned pair
`(*big.Int, error)` and the RPC round trips issued, in order. -/
def getBalanceAtDate (client : Client) (address : Address) (date : Time) :
    Except GoError Int × List RpcCall :=
  match client.BlockNumber with
  | .error err => (.error err, [.blockNumber])
  | .ok blockNumber =>
    ((scanBlocks client address date blockNumber).1,
      .blockNumber :: (scanBlocks client address date blockNumber).2)

/-! ## Notions the statements use -/

/-- The timestamp of a block as the `time.Time` line 120 builds from it. -/
def Block.timestamp (b : Block) : Crawler.Time := timeUnix (int64OfUint64 b.Time) 0

/-- The bound below which a block timestamp passes unchanged through line 120:
`int64(block.Time())` and the `int64` addition of `unixToInternal` inside
`time.Unix` do not wrap for a timestamp below `2^63 - 62135596800`. -/
def timestampBound : Nat := 2 ^ 63 - 62135596800

/-- The spec's comparison, on the time line and without machine arithmetic:
the instant `ts` seconds after 1970-01-01T00:00:00Z is strictly before the
instant of `date`. -/
def timestampBeforeDate (ts : Nat) (date : Time) : Prop :=
  (ts : Int) + unixToInternal < date.sec
    ∨ ((ts : Int) + unixToInternal = date.sec ∧ 0 < date.nsec)

instance timestampBeforeDate_decidable (ts : Nat) (date : Time) :
    Decidable (timestampBeforeDate ts date) :=
  inferInstanceAs (Decidable ((ts : Int) + unixToInternal < date.sec
    ∨ ((ts : Int) + unixToInternal = date.sec ∧ 0 < date.nsec)))

/-- The block fetches for the counter values `n, n - 1, ..., b + 1`, in that
order. -/
def fetchCalls (b : Nat) : Nat → List RpcCall
  | 0 => []
  | n + 1 =>
    if b ≤ n then .blockByNumber (int64OfUint64 (n + 1)) :: fetchCalls b n else []

/-- An address as a 32-byte topic: twelve zero bytes, then the address. -/
def addressTopic (a : Address) : Hash := { bytes := List.replicate 12 0 ++ a.bytes }

/-! ## Concrete nodes and inputs -/

/-- A node whose log query answers `logs` whatever the filter is. -/
def logsClient (logs : List Log) : Client :=
  { BlockNumber := .ok 0
    BlockByNumber := fun _ => .ok { Time := 0 }
    BalanceAt := fun _ _ => .ok 0
    FilterLogs := fun _ => .ok logs }

/-- A node of height `height` answering block `n` with `stamp n` and the
balance at block `n` with `balance n`. -/
def chainClient (height : Nat) (stamp : Int → Except GoError Nat)
    (balance : Int → Except GoError Int) : Client :=
  { BlockNumber := .ok height
    BlockByNumber := fun n =>
      match stamp n with
      | .ok t => .ok { Time := t }
      | .error e => .error e
    BalanceAt := fun _ n => balance n
    FilterLogs := fun _ => .ok [] }

/-- One block a day, block 100 at 2023-01-01T00:00:00Z (1672531200) and block
101 at 2023-01-02T00:00:00Z (1672617600). -/
def dailyStamp (n : Int) : Nat := (1663891200 + 86400 * n).toNat

/-- The instant 2023-01-02T00:00:00Z, as the handler parses "2023-01-02". -/
def date20230102 : Time := dateOfUnix 1672617600

/-- A node of height 2 with block 1 at 1970-01-01T00:00:00Z and block 2 at
`2^63 - 62135596800` seconds, the first timestamp that wraps on line 120. -/
def wrapChain : Client :=
  chainClient 2 (fun n => if n = 2 then .ok 9223371974719179008 else .ok 0)
    (fun n => .ok (5 * n))

/-- A node of height 1 whose blocks are all at `2^64 - 1` seconds. -/
def lateChain : Client :=
  chainClient 1 (fun _ => .ok 18446744073709551615) (fun n => .ok (5 * n))

/-- A node of height 2 whose block 2 is at `2^64 - 1` seconds and whose fetch
of block 1 times out. -/
def lateFaultyChain : Client :=
  chainClient 2
    (fun n => if n = 1 then .error ⟨"rpc: timeout"⟩ else .ok 18446744073709551615)
    (fun n => .ok (5 * n))

/-- The account 0x1111111111111111111111111111111111111111. -/
def sampleAccount : Address := { bytes := List.replicate 20 17 }

/-- The account 0x2222222222222222222222222222222222222222. -/
def otherAccount : Address := { bytes := List.replicate 20 34 }

/-- A stand-in for the library at concrete inputs: a 32-byte checksum in the
place of Keccak-256, and a decoder that, as for an event whose inputs are all
indexed, leaves `transferEvent` at its zero value. -/
def sampleDeps : Deps :=
  { ABI := Unit
    keccak256 := fun b => List.replicate 32 (b.sum % 256)
    abiJSON := fun _ => .ok ()
    UnpackIntoInterface := fun _ _ _ =>
      .ok { From := ⟨List.replicate 20 0⟩, To := ⟨List.replicate 20 0⟩, TokenId := none } }

/-- A Transfer log of `otherAccount` to `sampleAccount` for token 7: the
signature topic, the two address topics and the token topic. -/
def sampleTransferLog : Log :=
  { Address := otherAccount
    Topics := [⟨sampleDeps.keccak256 transferFnSignature⟩, addressTopic otherAccount,
      addressTopic sampleAccount, ⟨List.replicate 31 0 ++ [7]⟩]
    Data := []
    TxHash := ⟨List.replicate 32 171⟩ }

/-- A log of another event, with a single topic and a payload. -/
def sampleOtherLog : Log :=
  { Address := otherAccount
    Topics := [⟨List.replicate 32 1⟩]
    Data := [104, 105]
    TxHash := ⟨List.replicate 32 205⟩ }

/-! ## Auxiliary facts -/

theorem hexDigit_ne_x (k : Nat) : hexDigit k ≠ 'x' := by
  unfold hexDigit hextable
  by_cases h : k < 16
  · interval_cases k <;> decide
  · have h16 : 16 ≤ k := Nat.le_of_not_lt h
    rw [List.getD_eq_default _ _ (by simpa [String.toList] using h16)]
    decide

theorem hexEncode_ne_0x (b : Bytes) (rest : List Char) : hexEncode b ≠ '0' :: 'x' :: rest := by
  cases b with
  | nil => simp [hexEncode]
  | cons v tl =>
    intro h
    simp only [hexEncode, List.cons.injEq] at h
    exact hexDigit_ne_x _ h.2.1

theorem hashHex_ne_bytes2Hex (h : Hash) (hashed : Bytes) : h.Hex ≠ Bytes2Hex hashed := by
  intro heq
  have hd := congrArg String.data heq
  simp only [Hash.Hex, hexutilEncode, Bytes2Hex, String.data_append] at hd
  exact hexEncode_ne_0x hashed _ hd.symm


theorem foldl_append_records {α β : Type} (f : α → β) (xs : List α) (acc : List β) :
    xs.foldl (fun ys x => ys ++ [f x]) acc = acc ++ xs.map f := by
  induction xs generalizing acc with
  | nil => simp
  | cons x tl ih => simp [List.foldl_cons, ih]

theorem getTransactionData_eq_map (d : Deps) (client : Client) (address : Address)
    (startBlock : Option Int) (logs : List Log)
    (hlogs : client.FilterLogs
      { FromBlock := startBlock, ToBlock := none, Addresses := [address] } = .ok logs) :
    getTransactionData d client address startBlock
      = .ok (logs.map (transactionOf d.keccak256)) := by
  simp [getTransactionData, hlogs, foldl_append_records]

theorem acceptLog_of_topic (d : Deps) (hashed : Bytes) (userAddress : Address) (vLog : Log)
    (h : vLog.Topics ≠ []) : acceptLog d hashed userAddress vLog = .ok false := by
  obtain ⟨a, ts, hts⟩ := List.exists_cons_of_ne_nil h
  simp [acceptLog, topicAt, hts, hashHex_ne_bytes2Hex]

theorem transferLoop_of_topics (d : Deps) (hashed : Bytes) (userAddress : Address)
    (logs : List Log) (events : List NFTTransferEvent)
    (h : ∀ vLog ∈ logs, vLog.Topics ≠ []) :
    transferLoop d hashed userAddress logs events = .ok events := by
  induction logs with
  | nil => rfl
  | cons vLog rest ih =>
    have h1 := acceptLog_of_topic d hashed userAddress vLog (h vLog (List.mem_cons_self _ _))
    simp only [transferLoop, h1]
    exact ih (fun l hl => h l (List.mem_cons_of_mem _ hl))


theorem fetchCalls_of_le (b n : Nat) (h : n ≤ b) : fetchCalls b n = [] := by
  cases n with
  | zero => rfl
  | succ m => simp [fetchCalls]; omega

theorem fetchCalls_length (b n : Nat) : (fetchCalls b n).length = n - b := by
  induction n with
  | zero => simp [fetchCalls]
  | succ m ih =>
    by_cases h : b ≤ m
    · simp [fetchCalls, h, ih]; omega
    · simp [fetchCalls, h]; omega

theorem mem_fetchCalls (b n : Nat) (call : RpcCall) (h : call ∈ fetchCalls b n) :
    ∃ j, b < j ∧ j ≤ n ∧ call = .blockByNumber (int64OfUint64 j) := by
  induction n with
  | zero => simp [fetchCalls] at h
  | succ m ih =>
    by_cases hb : b ≤ m
    · simp only [fetchCalls, hb, if_true, List.mem_cons] at h
      rcases h with h | h
      · exact ⟨m + 1, by omega, le_refl _, h⟩
      · obtain ⟨j, h1, h2, h3⟩ := ih h
        exact ⟨j, h1, by omega, h3⟩
    · simp [fetchCalls, hb] at h

theorem scanBlocks_skip (client : Client) (address : Address) (date : Time) (b n : Nat)
    (hbn : b ≤ n)
    (h : ∀ j, b < j → j ≤ n → ∃ block,
      client.BlockByNumber (int64OfUint64 j) = .ok block ∧ block.timestamp.Before date = false) :
    scanBlocks client address date n
      = ((scanBlocks client address date b).1,
          fetchCalls b n ++ (scanBlocks client address date b).2) := by
  induction n with
  | zero =>
    have : b = 0 := by omega
    subst this
    simp [fetchCalls]
  | succ m ih =>
    by_cases hb : b ≤ m
    · obtain ⟨block, hf, ht⟩ := h (m + 1) (by omega) (le_refl _)
      have ih1 := ih hb (fun j h1 h2 => h j h1 (by omega))
      have ht1 : (timeUnix (int64OfUint64 block.Time) 0).Before date = false := ht
      rw [scanBlocks]
      simp only [hf, ht1, fetchCalls, hb, if_true]
      rw [ih1]
      simp
    · have : b = m + 1 := by omega
      subst this
      simp [fetchCalls_of_le]

theorem scanBlocks_length (client : Client) (address : Address) (date : Time) (n : Nat) :
    (scanBlocks client address date n).2.length ≤ n + 1 := by
  induction n with
  | zero => simp [scanBlocks]
  | succ m ih =>
    rw [scanBlocks]
    split
    · simp
    · split
      · simp
      · simp; omega

theorem Time.Before_ne (t u : Time) (h : t.Before u = true) : t ≠ u := by
  intro heq
  subst heq
  simp [Time.Before] at h

/-- Below `timestampBound` the test of line 120 is the comparison of
instants: the `time.Time` built from a block at `ts` seconds is `Before` the
date exactly when `ts` is strictly before the date on the time line. -/
theorem timestamp_Before_iff (ts : Nat) (date : Time) (hts : ts < timestampBound) :
    (Block.timestamp ⟨ts⟩).Before date = true ↔ timestampBeforeDate ts date := by
  have hb : timestampBound = 9223371974719179008 := by decide
  have hu : unixToInternal = 62135596800 := rfl
  have h1 : wrapInt64 (ts : Int) = ts := by
    unfold wrapInt64; omega
  have h2 : wrapInt64 ((ts : Int) + unixToInternal) = ts + unixToInternal := by
    unfold wrapInt64; omega
  simp [Block.timestamp, timeUnix, unixTime, int64OfUint64, h1, h2, Time.Before,
    timestampBeforeDate]

theorem timestamp_Before_false_iff (ts : Nat) (date : Time) (hts : ts < timestampBound) :
    (Block.timestamp ⟨ts⟩).Before date = false ↔ ¬ timestampBeforeDate ts date := by
  rw [← timestamp_Before_iff ts date hts]
  simp

theorem dateOfUnix_ne_of_before (ts : Nat) (date : Time) (h : timestampBeforeDate ts date) :
    dateOfUnix ts ≠ date := by
  intro heq
  subst heq
  simp [timestampBeforeDate, dateOfUnix] at h

theorem dailyStamp_lt_bound (i : Nat) (h : i ≤ 1000) :
    dailyStamp (int64OfUint64 i) < timestampBound := by
  have hb : timestampBound = 9223371974719179008 := by decide
  have h1 : int64OfUint64 i = i := by
    unfold int64OfUint64 wrapInt64; omega
  rw [hb, h1]
  unfold dailyStamp
  omega

theorem hexEncode_length (b : Bytes) : (hexEncode b).length = 2 * b.length := by
  induction b with
  | nil => rfl
  | cons v tl ih => simp [hexEncode, ih]; omega

theorem checksumFrom_length (hash : Bytes) (j : Nat) (digits : List Char) :
    (checksumFrom hash j digits).length = digits.length := by
  induction digits generalizing j with
  | nil => rfl
  | cons ch tl ih => simp [checksumFrom, ih]

/-- A second reason why line 77 accepts nothing: a 32-byte topic renders to
66 characters and a 20-byte address to 42, so `vLog.Topics[k].Hex()` never
equals `userAddress.Hex()`. -/
theorem hashHex_ne_addressHex (keccak256 : Bytes → Bytes) (h : Hash) (a : Address)
    (hlen : h.bytes.length ≠ a.bytes.length) : h.Hex ≠ a.Hex keccak256 := by
  intro heq
  have hd := congrArg (fun s => s.data.length) heq
  simp only [Hash.Hex, hexutilEncode, Address.Hex, String.data_append, List.length_append,
    hexEncode_length, checksumFrom_length] at hd
  omega

theorem scanBlocks_found (client : Client) (address : Address) (date : Time) (n : Nat)
    (blk : Nat → Block)
    (hblk : ∀ i, 1 ≤ i → i ≤ n → client.BlockByNumber (int64OfUint64 i) = .ok (blk i))
    (hex : ∃ i, 1 ≤ i ∧ i ≤ n ∧ (blk i).timestamp.Before date = true) :
    ∃ b, 1 ≤ b ∧ b ≤ n ∧ (blk b).timestamp.Before date = true
      ∧ (∀ j, b < j → j ≤ n → (blk j).timestamp.Before date = false)
      ∧ scanBlocks client address date n
          = (client.BalanceAt address (int64OfUint64 b),
              fetchCalls b n ++ [.blockByNumber (int64OfUint64 b),
                .balanceAt address (int64OfUint64 b)]) := by
  induction n with
  | zero =>
    obtain ⟨i, h1, h2, _⟩ := hex
    omega
  | succ m ih =>
    have hf := hblk (m + 1) (by omega) (le_refl _)
    by_cases hb : (blk (m + 1)).timestamp.Before date = true
    · refine ⟨m + 1, by omega, le_refl _, hb, fun j h1 h2 => by omega, ?_⟩
      have hb1 : (timeUnix (int64OfUint64 (blk (m + 1)).Time) 0).Before date = true := hb
      rw [scanBlocks]
      simp [hf, hb1, fetchCalls_of_le]
    · have hb0 : (blk (m + 1)).timestamp.Before date = false := by simpa using hb
      have hex1 : ∃ i, 1 ≤ i ∧ i ≤ m ∧ (blk i).timestamp.Before date = true := by
        obtain ⟨i, h1, h2, h3⟩ := hex
        have hne : i ≠ m + 1 := by
          intro heq
          rw [heq, hb0] at h3
          exact Bool.noConfusion h3
        exact ⟨i, h1, by omega, h3⟩
      obtain ⟨b, h1, h2, h3, h4, h5⟩ := ih (fun i hi1 hi2 => hblk i hi1 (by omega)) hex1
      refine ⟨b, h1, by omega, h3, ?_, ?_⟩
      · intro j hj1 hj2
        by_cases hj : j = m + 1
        · rw [hj]; exact hb0
        · exact h4 j hj1 (by omega)
      · have hb1 : (timeUnix (int64OfUint64 (blk (m + 1)).Time) 0).Before date = false := hb0
        rw [scanBlocks]
        simp only [hf, hb1, h5, fetchCalls, h2, if_true]
        simp

/-- C1, as stated, fails when a timestamp wraps on line 120: on a chain of
height 2 with block 1 at 1970-01-01 and block 2 at `2^63 - 62135596800`
seconds, date 2023-01-02, every RPC call succeeds and block 1 is the greatest
(the only) block strictly before the date, yet the call reads the balance at
block 2 (10) and not at block 1 (5). -/
theorem getBalanceAtDate_latest_block_before_counterexample :
    wrapChain.BlockNumber = .ok 2
      ∧ wrapChain.BlockByNumber (int64OfUint64 1) = .ok ⟨0⟩
      ∧ wrapChain.BlockByNumber (int64OfUint64 2) = .ok ⟨9223371974719179008⟩
      ∧ timestampBeforeDate 0 date20230102
      ∧ ¬ timestampBeforeDate 9223371974719179008 date20230102
      ∧ wrapChain.BalanceAt sampleAccount (int64OfUint64 1) = .ok 5
      ∧ getBalanceAtDate wrapChain sampleAccount date20230102
          = (.ok 10, [.blockNumber, .blockByNumber 2, .balanceAt sampleAccount 2]) :=
  ⟨rfl, rfl, rfl, by decide, by decide, rfl, rfl⟩

/-- C1, amended: for every chain height H, every assignment of timestamps
below `2^63 - 62135596800` to the blocks 1..H and every target date, when the
height read, the fetches of blocks 1..H and the balance read succeed and some
block in 1..H has its timestamp strictly before the date, `getBalanceAtDate`
returns the balance read at the greatest block number `b` in 1..H whose
timestamp is strictly before the date; a block whose timestamp is the date
itself is not chosen, and the round trips are the height read, the fetches of
H down to `b` and the balance read at `b`. -/
theorem getBalanceAtDate_latest_block_before (client : Client) (address : Address)
    (date : Time) (H : Nat) (ts : Nat → Nat) (bal : Int → Int)
    (hH : client.BlockNumber = .ok H)
    (hblk : ∀ i, 1 ≤ i → i ≤ H → client.BlockByNumber (int64OfUint64 i) = .ok ⟨ts i⟩)
    (hbal : ∀ n, client.BalanceAt address n = .ok (bal n))
    (hrange : ∀ i, 1 ≤ i → i ≤ H → ts i < timestampBound)
    (hex : ∃ i, 1 ≤ i ∧ i ≤ H ∧ timestampBeforeDate (ts i) date) :
    ∃ b, 1 ≤ b ∧ b ≤ H ∧ timestampBeforeDate (ts b) date
      ∧ (∀ j, b < j → j ≤ H → ¬ timestampBeforeDate (ts j) date)
      ∧ dateOfUnix (ts b) ≠ date
      ∧ getBalanceAtDate client address date
          = (.ok (bal (int64OfUint64 b)),
              .blockNumber :: (fetchCalls b H ++ [.blockByNumber (int64OfUint64 b),
                .balanceAt address (int64OfUint64 b)])) := by
  have hex1 : ∃ i, 1 ≤ i ∧ i ≤ H ∧ (Block.mk (ts i)).timestamp.Before date = true := by
    obtain ⟨i, h1, h2, h3⟩ := hex
    exact ⟨i, h1, h2, (timestamp_Before_iff (ts i) date (hrange i h1 h2)).2 h3⟩
  obtain ⟨b, h1, h2, h3, h4, h5⟩ :=
    scanBlocks_found client address date H (fun i => Block.mk (ts i)) hblk hex1
  have hb : timestampBeforeDate (ts b) date :=
    (timestamp_Before_iff (ts b) date (hrange b h1 h2)).1 h3
  refine ⟨b, h1, h2, hb, ?_, dateOfUnix_ne_of_before _ _ hb, ?_⟩
  · intro j hj1 hj2
    exact (timestamp_Before_false_iff (ts j) date (hrange j (by omega) hj2)).1 (h4 j hj1 hj2)
  · simp [getBalanceAtDate, hH, h5, hbal]

/-- C1 amended, at a concrete chain: height 101, block 100 at
2023-01-01T00:00:00Z, block 101 at 2023-01-02T00:00:00Z, date 2023-01-02; the
call reads the balance at block 100. -/
theorem getBalanceAtDate_latest_block_before_witness :
    (∃ b, 1 ≤ b ∧ b ≤ 101
      ∧ timestampBeforeDate (dailyStamp (int64OfUint64 b)) date20230102
      ∧ (∀ j, b < j → j ≤ 101 →
          ¬ timestampBeforeDate (dailyStamp (int64OfUint64 j)) date20230102)
      ∧ dateOfUnix (dailyStamp (int64OfUint64 b)) ≠ date20230102
      ∧ getBalanceAtDate (chainClient 101 (fun n => .ok (dailyStamp n)) (fun n => .ok (5 * n)))
            sampleAccount date20230102
          = (.ok (5 * int64OfUint64 b),
              .blockNumber :: (fetchCalls b 101 ++ [.blockByNumber (int64OfUint64 b),
                .balanceAt sampleAccount (int64OfUint64 b)])))
    ∧ getBalanceAtDate (chainClient 101 (fun n => .ok (dailyStamp n)) (fun n => .ok (5 * n)))
          sampleAccount date20230102
        = (.ok 500, [.blockNumber, .blockByNumber 101, .blockByNumber 100,
            .balanceAt sampleAccount 100]) :=
  ⟨getBalanceAtDate_latest_block_before
      (chainClient 101 (fun n => .ok (dailyStamp n)) (fun n => .ok (5 * n)))
      sampleAccount date20230102 101 (fun i => dailyStamp (int64OfUint64 i))
      (fun n => 5 * n) rfl (fun _ _ _ => rfl) (fun _ => rfl)
      (fun i _ h2 => dailyStamp_lt_bound i (by omega))
      ⟨100, by decide, by decide, by decide⟩,
    by rfl⟩

/-- C5, as stated, fails when a timestamp wraps on line 120: on a chain of
height 1 whose blocks are at `2^64 - 1` seconds, date 1970-01-01, the height
read and the block fetch succeed and no block is strictly before the date, yet
the call issues a balance read and returns the balance at block 1 instead of
the not-found error. -/
theorem getBalanceAtDate_not_found_counterexample :
    lateChain.BlockNumber = .ok 1
      ∧ lateChain.BlockByNumber (int64OfUint64 0) = .ok ⟨18446744073709551615⟩
      ∧ lateChain.BlockByNumber (int64OfUint64 1) = .ok ⟨18446744073709551615⟩
      ∧ ¬ timestampBeforeDate 18446744073709551615 (dateOfUnix 0)
      ∧ getBalanceAtDate lateChain sampleAccount (dateOfUnix 0)
          = (.ok 5, [.blockNumber, .blockByNumber 1, .balanceAt sampleAccount 1]) :=
  ⟨rfl, rfl, rfl, by decide, rfl⟩

/-- C5, amended: for every chain height H and target date, when the height
read and the fetches of blocks 1..H succeed, the timestamps of those blocks
are below `2^63 - 62135596800` and none of them is strictly before the date,
`getBalanceAtDate` fails with the error "no blocks found before the specified
date", returns no balance, and its round trips are the height read and the
fetches of H down to 1: no balance read is issued. -/
theorem getBalanceAtDate_not_found (client : Client) (address : Address) (date : Time)
    (H : Nat) (ts : Nat → Nat)
    (hH : client.BlockNumber = .ok H)
    (hblk : ∀ i, 1 ≤ i → i ≤ H → client.BlockByNumber (int64OfUint64 i) = .ok ⟨ts i⟩)
    (hrange : ∀ i, 1 ≤ i → i ≤ H → ts i < timestampBound)
    (hnone : ∀ i, 1 ≤ i → i ≤ H → ¬ timestampBeforeDate (ts i) date) :
    getBalanceAtDate client address date
        = (.error ⟨"no blocks found before the specified date"⟩, .blockNumber :: fetchCalls 0 H)
      ∧ ∀ account number,
          RpcCall.balanceAt account number ∉ (getBalanceAtDate client address date).2 := by
  have hs := scanBlocks_skip client address date 0 H (Nat.zero_le _)
    (fun j h1 h2 => ⟨Block.mk (ts j), hblk j h1 h2,
      (timestamp_Before_false_iff (ts j) date (hrange j h1 h2)).2 (hnone j h1 h2)⟩)
  have hres : getBalanceAtDate client address date
      = (.error ⟨"no blocks found before the specified date"⟩, .blockNumber :: fetchCalls 0 H) := by
    simp [getBalanceAtDate, hH, hs, scanBlocks]
  refine ⟨hres, ?_⟩
  intro account number hmem
  rw [hres] at hmem
  simp only [List.mem_cons] at hmem
  rcases hmem with h | h
  · exact RpcCall.noConfusion h
  · obtain ⟨j, _, _, hj⟩ := mem_fetchCalls 0 H _ h
    exact RpcCall.noConfusion hj

/-- C5 amended, at a concrete chain: height 3, one block a day from
2022-09-24, date 1970-01-01; the call fails after the height read and three
block fetches. -/
theorem getBalanceAtDate_not_found_witness :
    getBalanceAtDate (chainClient 3 (fun n => .ok (dailyStamp n)) (fun n => .ok (5 * n)))
        sampleAccount (dateOfUnix 0)
        = (.error ⟨"no blocks found before the specified date"⟩,
            [.blockNumber, .blockByNumber 3, .blockByNumber 2, .blockByNumber 1])
      ∧ ∀ account number, RpcCall.balanceAt account number ∉
          (getBalanceAtDate (chainClient 3 (fun n => .ok (dailyStamp n)) (fun n => .ok (5 * n)))
            sampleAccount (dateOfUnix 0)).2 :=
  getBalanceAtDate_not_found
    (chainClient 3 (fun n => .ok (dailyStamp n)) (fun n => .ok (5 * n)))
    sampleAccount (dateOfUnix 0) 3 (fun i => dailyStamp (int64OfUint64 i))
    rfl (fun _ _ _ => rfl)
    (fun i _ h2 => dailyStamp_lt_bound i (by omega))
    (fun i h1 h2 => by interval_cases i <;> decide)

/-- C6, as stated, fails at height 0: every RPC call succeeds and the head
block (block 0, at 2015-07-30) is strictly before 2023-01-02, yet the call
issues the height read only and fails with the not-found error instead of
returning the balance at block 0. -/
theorem getBalanceAtDate_head_counterexample :
    (chainClient 0 (fun _ => .ok 1438269973) (fun _ => .ok 42)).BlockNumber = .ok 0
      ∧ (chainClient 0 (fun _ => .ok 1438269973) (fun _ => .ok 42)).BlockByNumber
          (int64OfUint64 0) = .ok ⟨1438269973⟩
      ∧ (Block.mk 1438269973).timestamp.Before date20230102 = true
      ∧ (chainClient 0 (fun _ => .ok 1438269973) (fun _ => .ok 42)).BalanceAt sampleAccount
          (int64OfUint64 0) = .ok 42
      ∧ getBalanceAtDate (chainClient 0 (fun _ => .ok 1438269973) (fun _ => .ok 42))
          sampleAccount date20230102
        = (.error ⟨"no blocks found before the specified date"⟩, [.blockNumber]) :=
  ⟨rfl, rfl, by decide, rfl, rfl⟩

/-- C6, amended: for every chain height H of at least 1, when the height read,
the fetch of the head block H and the balance read at H succeed and the head
block's timestamp is strictly before the target date, `getBalanceAtDate`
returns the balance read at the head block H, after exactly three round trips. -/
theorem getBalanceAtDate_head (client : Client) (address : Address) (date : Time)
    (H : Nat) (head : Block) (bal : Int)
    (hH : client.BlockNumber = .ok H) (hpos : 1 ≤ H)
    (hhead : client.BlockByNumber (int64OfUint64 H) = .ok head)
    (hafter : head.timestamp.Before date = true)
    (hbal : client.BalanceAt address (int64OfUint64 H) = .ok bal) :
    getBalanceAtDate client address date
      = (.ok bal, [.blockNumber, .blockByNumber (int64OfUint64 H),
          .balanceAt address (int64OfUint64 H)]) := by
  obtain ⟨m, rfl⟩ : ∃ m, H = m + 1 := ⟨H - 1, by omega⟩
  have h1 : (timeUnix (int64OfUint64 head.Time) 0).Before date = true := hafter
  simp [getBalanceAtDate, hH, scanBlocks, hhead, h1, hbal]

/-- C6 amended, at a concrete chain: height 101 with block 101 at
2023-01-02T00:00:00Z and the date one day later. -/
theorem getBalanceAtDate_head_witness :
    getBalanceAtDate (chainClient 101 (fun n => .ok (dailyStamp n)) (fun n => .ok (5 * n)))
        sampleAccount (dateOfUnix 1672704000)
      = (.ok 505, [.blockNumber, .blockByNumber 101, .balanceAt sampleAccount 101]) :=
  getBalanceAtDate_head
    (chainClient 101 (fun n => .ok (dailyStamp n)) (fun n => .ok (5 * n)))
    sampleAccount (dateOfUnix 1672704000) 101 (Block.mk 1672617600) 505
    rfl (by decide) rfl (by decide) rfl

/-- C8, as stated, fails when a timestamp wraps on line 120: on a chain of
height 2 whose block 2 is at `2^64 - 1` seconds (not strictly before
2023-01-02) and whose fetch of block 1 fails with "rpc: timeout", the call
does not return that error: it never fetches block 1 and returns the balance
read at block 2. -/
theorem getBalanceAtDate_propagates_rpc_error_counterexample :
    lateFaultyChain.BlockNumber = .ok 2
      ∧ lateFaultyChain.BlockByNumber (int64OfUint64 2) = .ok ⟨18446744073709551615⟩
      ∧ ¬ timestampBeforeDate 18446744073709551615 date20230102
      ∧ lateFaultyChain.BlockByNumber (int64OfUint64 1) = .error ⟨"rpc: timeout"⟩
      ∧ getBalanceAtDate lateFaultyChain sampleAccount date20230102
          = (.ok 10, [.blockNumber, .blockByNumber 2, .balanceAt sampleAccount 2]) :=
  ⟨rfl, rfl, by decide, rfl, rfl⟩

/-- C8, amended: let every block above `i` (up to H) be fetched successfully
with a timestamp below `2^63 - 62135596800` that is not strictly before the
date. If the fetch of block `i` fails with `e`, `getBalanceAtDate` returns
exactly `e` and no balance, and its round trips are the height read and the
fetches of H down to `i`: no block below `i` is fetched and no balance is
read. If instead block `i` is fetched with a timestamp below the same bound
that is strictly before the date, and the balance read at `i` fails with `e`,
the call returns `e`. -/
theorem getBalanceAtDate_propagates_rpc_error (client : Client) (address : Address)
    (date : Time) (H i : Nat) (ts : Nat → Nat) (e : GoError)
    (hH : client.BlockNumber = .ok H) (hi1 : 1 ≤ i) (hiH : i ≤ H)
    (habove : ∀ j, i < j → j ≤ H →
      client.BlockByNumber (int64OfUint64 j) = .ok ⟨ts j⟩
        ∧ ts j < timestampBound ∧ ¬ timestampBeforeDate (ts j) date) :
    (client.BlockByNumber (int64OfUint64 i) = .error e →
        getBalanceAtDate client address date
            = (.error e, .blockNumber :: (fetchCalls i H ++ [.blockByNumber (int64OfUint64 i)]))
          ∧ ∀ call ∈ (getBalanceAtDate client address date).2,
              call = .blockNumber
                ∨ ∃ j, i ≤ j ∧ j ≤ H ∧ call = .blockByNumber (int64OfUint64 j))
      ∧ (∀ t, client.BlockByNumber (int64OfUint64 i) = .ok ⟨t⟩ →
          t < timestampBound → timestampBeforeDate t date →
          client.BalanceAt address (int64OfUint64 i) = .error e →
          getBalanceAtDate client address date
            = (.error e, .blockNumber :: (fetchCalls i H ++ [.blockByNumber (int64OfUint64 i),
                .balanceAt address (int64OfUint64 i)]))) := by
  have hs := scanBlocks_skip client address date i H hiH
    (fun j h1 h2 => ⟨Block.mk (ts j), (habove j h1 h2).1,
      (timestamp_Before_false_iff (ts j) date (habove j h1 h2).2.1).2 (habove j h1 h2).2.2⟩)
  obtain ⟨m, rfl⟩ : ∃ m, i = m + 1 := ⟨i - 1, by omega⟩
  constructor
  · intro hfail
    have hres : getBalanceAtDate client address date
        = (.error e, .blockNumber ::
            (fetchCalls (m + 1) H ++ [.blockByNumber (int64OfUint64 (m + 1))])) := by
      simp [getBalanceAtDate, hH, hs, scanBlocks, hfail]
    refine ⟨hres, ?_⟩
    intro call hmem
    rw [hres] at hmem
    simp only [List.mem_cons, List.mem_append, List.mem_singleton, List.not_mem_nil,
      or_false] at hmem
    rcases hmem with h | h | h
    · exact Or.inl h
    · obtain ⟨j, h1, h2, h3⟩ := mem_fetchCalls (m + 1) H _ h
      exact Or.inr ⟨j, by omega, h2, h3⟩
    · exact Or.inr ⟨m + 1, le_refl _, hiH, h⟩
  · intro t hok hrange hbefore hbal
    have h1 : (timeUnix (int64OfUint64 (Block.mk t).Time) 0).Before date = true :=
      (timestamp_Before_iff t date hrange).2 hbefore
    simp [getBalanceAtDate, hH, hs, scanBlocks, hok, h1, hbal]

/-- C8 amended, at concrete chains of height 5 and date 2023-01-02: on the
first the fetch of block 3 times out after blocks 5 and 4 were found too late;
on the second block 3 is before the date and the balance read times out. -/
theorem getBalanceAtDate_propagates_rpc_error_witness :
    (getBalanceAtDate
        (chainClient 5
          (fun n => if n = 3 then .error ⟨"rpc: timeout"⟩ else .ok (dailyStamp (n + 200)))
          (fun n => .ok (5 * n)))
        sampleAccount date20230102
        = (.error ⟨"rpc: timeout"⟩,
            [.blockNumber, .blockByNumber 5, .blockByNumber 4, .blockByNumber 3])
      ∧ ∀ call ∈ (getBalanceAtDate
          (chainClient 5
            (fun n => if n = 3 then .error ⟨"rpc: timeout"⟩ else .ok (dailyStamp (n + 200)))
            (fun n => .ok (5 * n)))
          sampleAccount date20230102).2,
          call = .blockNumber ∨ ∃ j, 3 ≤ j ∧ j ≤ 5 ∧ call = .blockByNumber (int64OfUint64 j))
      ∧ getBalanceAtDate
          (chainClient 5 (fun n => .ok (dailyStamp (n + 97))) (fun _ => .error ⟨"rpc: timeout"⟩))
          sampleAccount date20230102
        = (.error ⟨"rpc: timeout"⟩,
            [.blockNumber, .blockByNumber 5, .blockByNumber 4, .blockByNumber 3,
              .balanceAt sampleAccount 3]) :=
  ⟨(getBalanceAtDate_propagates_rpc_error
      (chainClient 5
        (fun n => if n = 3 then .error ⟨"rpc: timeout"⟩ else .ok (dailyStamp (n + 200)))
        (fun n => .ok (5 * n)))
      sampleAccount date20230102 5 3
      (fun j => dailyStamp (int64OfUint64 j + 200)) ⟨"rpc: timeout"⟩
      rfl (by decide) (by decide)
      (fun j h1 h2 => by interval_cases j <;> exact ⟨rfl, by decide, by decide⟩)).1 rfl,
    (getBalanceAtDate_propagates_rpc_error
      (chainClient 5 (fun n => .ok (dailyStamp (n + 97))) (fun _ => .error ⟨"rpc: timeout"⟩))
      sampleAccount date20230102 5 3
      (fun j => dailyStamp (int64OfUint64 j + 97)) ⟨"rpc: timeout"⟩
      rfl (by decide) (by decide)
      (fun j h1 h2 => by interval_cases j <;> exact ⟨rfl, by decide, by decide⟩)).2
      (dailyStamp 100) rfl (by decide) (by decide) rfl⟩

/-- C9, as stated, fails at height 1: the height read, the fetch of block 1
(which is before the date) and the balance read make three round trips, more
than H + 1 = 2. -/
theorem getBalanceAtDate_round_trips_counterexample :
    (chainClient 1 (fun n => .ok (dailyStamp n)) (fun n => .ok (5 * n))).BlockNumber = .ok 1
      ∧ (getBalanceAtDate (chainClient 1 (fun n => .ok (dailyStamp n)) (fun n => .ok (5 * n)))
          sampleAccount date20230102).2
        = [.blockNumber, .blockByNumber 1, .balanceAt sampleAccount 1]
      ∧ 1 + 1 < (getBalanceAtDate
          (chainClient 1 (fun n => .ok (dailyStamp n)) (fun n => .ok (5 * n)))
          sampleAccount date20230102).2.length :=
  ⟨rfl, rfl, by decide⟩

/-- C9, amended: for every chain height H, whatever the node answers to the
block fetches and the balance read, one call of `getBalanceAtDate` performs
at most H + 2 round trips: the height read, at most H block fetches and at
most one balance read. -/
theorem getBalanceAtDate_round_trips (client : Client) (address : Address) (date : Time)
    (H : Nat) (hH : client.BlockNumber = .ok H) :
    (getBalanceAtDate client address date).2.length ≤ H + 2 := by
  have h := scanBlocks_length client address date H
  simp [getBalanceAtDate, hH]
  omega

/-- C9 amended, at a concrete chain of height 2 whose block 1 is the first
one before the date: four round trips. -/
theorem getBalanceAtDate_round_trips_witness :
    (getBalanceAtDate (chainClient 2 (fun n => .ok (dailyStamp (n + 99))) (fun n => .ok (5 * n)))
        sampleAccount date20230102).2.length ≤ 2 + 2 :=
  getBalanceAtDate_round_trips
    (chainClient 2 (fun n => .ok (dailyStamp (n + 99))) (fun n => .ok (5 * n)))
    sampleAccount date20230102 2 rfl

/-- C7: when the node answers the log query with `logs`, `getTransactionData`
returns no error and a list of the same length whose i-th record carries the
transaction hash, the emitting address and the data of the i-th log; an empty
answer gives an empty list. -/
theorem getTransactionData_preserves_logs (d : Deps) (client : Client) (address : Address)
    (startBlock : Option Int) (logs : List Log)
    (hlogs : client.FilterLogs
      { FromBlock := startBlock, ToBlock := none, Addresses := [address] } = .ok logs) :
    ∃ transactions, getTransactionData d client address startBlock = .ok transactions
      ∧ transactions.length = logs.length
      ∧ (∀ i (h : i < logs.length), transactions[i]? = some
          { TxHash := (logs[i]).TxHash.Hex
            Address := (logs[i]).Address.Hex d.keccak256
            Data := (logs[i]).Data })
      ∧ (logs = [] → transactions = []) := by
  refine ⟨logs.map (transactionOf d.keccak256),
    getTransactionData_eq_map d client address startBlock logs hlogs, by simp, ?_, ?_⟩
  · intro i h
    simp [transactionOf, h]
  · intro h
    simp [h]

/-- C7, at a concrete answer of two logs. -/
theorem getTransactionData_preserves_logs_witness :
    ∃ transactions,
      getTransactionData sampleDeps (logsClient [sampleTransferLog, sampleOtherLog])
          otherAccount (some 0) = .ok transactions
      ∧ transactions.length = [sampleTransferLog, sampleOtherLog].length
      ∧ (∀ i (h : i < [sampleTransferLog, sampleOtherLog].length), transactions[i]? = some
          { TxHash := ([sampleTransferLog, sampleOtherLog][i]).TxHash.Hex
            Address := ([sampleTransferLog, sampleOtherLog][i]).Address.Hex sampleDeps.keccak256
            Data := ([sampleTransferLog, sampleOtherLog][i]).Data })
      ∧ ([sampleTransferLog, sampleOtherLog] = [] → transactions = []) :=
  getTransactionData_preserves_logs sampleDeps (logsClient [sampleTransferLog, sampleOtherLog])
    otherAccount (some 0) [sampleTransferLog, sampleOtherLog] rfl

/-- C10: when the node answers the log query with logs that each have at
least one topic, `getNFTTransferEvents` returns the empty event list and no
error: the rendering `Hex()` of a topic starts with "0x" and the rendering
`Bytes2Hex` of the signature hash does not, so the two strings differ for
every log, the condition of line 77 is false and the decoding branch is not
entered. -/
theorem getNFTTransferEvents_accepts_nothing (d : Deps) (client : Client)
    (contractAddress userAddress : Address) (startBlock : Option Int) (logs : List Log)
    (hlogs : client.FilterLogs
      { FromBlock := startBlock, ToBlock := none, Addresses := [contractAddress] } = .ok logs)
    (htopics : ∀ vLog ∈ logs, vLog.Topics ≠ []) :
    getNFTTransferEvents d client contractAddress userAddress startBlock = .ok []
      ∧ (∀ topic : Hash, topic.Hex ≠ Bytes2Hex (d.keccak256 transferFnSignature))
      ∧ ∀ vLog ∈ logs,
          acceptLog d (d.keccak256 transferFnSignature) userAddress vLog = .ok false := by
  refine ⟨?_, fun topic => hashHex_ne_bytes2Hex topic _, fun vLog hmem =>
    acceptLog_of_topic d _ userAddress vLog (htopics vLog hmem)⟩
  simp only [getNFTTransferEvents, hlogs]
  exact transferLoop_of_topics d _ userAddress logs [] htopics

/-- C10, at a concrete answer: a Transfer log to the queried account and a log
of another event. -/
theorem getNFTTransferEvents_accepts_nothing_witness :
    getNFTTransferEvents sampleDeps (logsClient [sampleTransferLog, sampleOtherLog])
        otherAccount sampleAccount (some 0) = .ok []
      ∧ (∀ topic : Hash, topic.Hex ≠ Bytes2Hex (sampleDeps.keccak256 transferFnSignature))
      ∧ ∀ vLog ∈ [sampleTransferLog, sampleOtherLog],
          acceptLog sampleDeps (sampleDeps.keccak256 transferFnSignature) sampleAccount vLog
            = .ok false :=
  getNFTTransferEvents_accepts_nothing sampleDeps
    (logsClient [sampleTransferLog, sampleOtherLog]) otherAccount sampleAccount (some 0)
    [sampleTransferLog, sampleOtherLog] rfl
    (fun vLog hmem => by
      simp only [List.mem_cons, List.mem_singleton, List.not_mem_nil, or_false] at hmem
      rcases hmem with h | h <;> subst h <;> simp [sampleTransferLog, sampleOtherLog])

/-- C2, on the code: a log with the three topics [sigHash, topicA, topicB],
`sigHash` the hash of "Transfer(address,address,uint256)" and `topicB` the
queried account as a topic, is rejected by the condition of line 77 and the
call returns no event, for every hash function, `topicA`, payload and account. -/
theorem getNFTTransferEvents_rejects_receiver_log (d : Deps)
    (contractAddress userAddress : Address) (topicA txHash : Hash) (data : Bytes)
    (startBlock : Option Int) :
    acceptLog d (d.keccak256 transferFnSignature) userAddress
        { Address := contractAddress
          Topics := [⟨d.keccak256 transferFnSignature⟩, topicA, addressTopic userAddress]
          Data := data, TxHash := txHash } = .ok false
      ∧ getNFTTransferEvents d
          (logsClient [{ Address := contractAddress
                         Topics := [⟨d.keccak256 transferFnSignature⟩, topicA,
                           addressTopic userAddress]
                         Data := data, TxHash := txHash }])
          contractAddress userAddress startBlock = .ok [] := by
  refine ⟨acceptLog_of_topic d _ userAddress _ (by simp), ?_⟩
  simp only [getNFTTransferEvents, logsClient]
  exact transferLoop_of_topics d _ userAddress _ [] (by simp)

/-- C3, on the code: for a Transfer log of the contract whose topics are the
signature hash, the sender, the receiver and any further topics, the call for
the sender and the call for the receiver both return the empty list, so no
event with the log's sender, receiver and token is in the result. -/
theorem getNFTTransferEvents_drops_transfer_log (d : Deps)
    (contractAddress sender receiver : Address) (more : List Hash) (txHash : Hash)
    (data : Bytes) (startBlock : Option Int) :
    getNFTTransferEvents d
        (logsClient [{ Address := contractAddress
                       Topics := ⟨d.keccak256 transferFnSignature⟩ :: addressTopic sender
                         :: addressTopic receiver :: more
                       Data := data, TxHash := txHash }])
        contractAddress sender startBlock = .ok []
      ∧ getNFTTransferEvents d
          (logsClient [{ Address := contractAddress
                         Topics := ⟨d.keccak256 transferFnSignature⟩ :: addressTopic sender
                           :: addressTopic receiver :: more
                         Data := data, TxHash := txHash }])
          contractAddress receiver startBlock = .ok [] := by
  constructor <;>
  · simp only [getNFTTransferEvents, logsClient]
    exact transferLoop_of_topics d _ _ _ [] (by simp)

/-- C4, on the code: when the first log of the node's answer has no topic, the
index expression `vLog.Topics[0]` of line 77 is out of range and the call
aborts with a run-time panic instead of skipping the log. -/
theorem getNFTTransferEvents_panics_without_topics (d : Deps)
    (contractAddress userAddress emitter : Address) (startBlock : Option Int) (data : Bytes)
    (txHash : Hash) (rest : List Log) :
    getNFTTransferEvents d
        (logsClient ({ Address := emitter, Topics := [], Data := data, TxHash := txHash } :: rest))
        contractAddress userAddress startBlock
      = .panic "runtime error: index out of range [0] with length 0" := by
  simp only [getNFTTransferEvents, logsClient, transferLoop, acceptLog, topicAt, List.get?,
    List.length]
  rfl
end Crawler
